import Mathlib

/-!
Verification of the mempool/consensus primary core of `smr-hydrangea`:
a shallow embedding of `VotesAggregator` (primary/src/aggregators.rs),
`Core` message sanitation and processing (primary/src/core.rs),
`Synchronizer::missing_payload` (primary/src/synchronizer.rs) and the
`Proposer` trigger logic (primary/src/proposer.rs), with theorems about
the certification invariants stated in the specification.
-/

namespace Hydrangea

/-- Authority identity (`crypto::PublicKey`), abstracted to a natural number. -/
abbrev PublicKey := Nat

/-- BLS public key share in G2 (`blsttc::PublicKeyShareG2`), abstracted. -/
abbrev G2 := Nat

/-- BLS signature share in G1 (`blsttc::SignatureShareG1`), abstracted. -/
abbrev Sig := Nat

/-- Content-addressed identifier (`crypto::Digest`), modelled as its byte string. -/
abbrev Digest := List Nat

/-- Batch digest / worker-id pair making up a header payload entry.
Modelled from the spec: `messages.rs` is not in the sources; the spec's data
model gives `payload: ordered set of (batch_digest, worker_id)`. -/
abbrev Transaction := Digest × Nat

/-- Header (`messages::Header`). Modelled from the spec: `messages.rs` is not in
the sources; fields follow the spec's data model, with `id` the content hash. -/
structure Header where
  author : PublicKey
  round : Nat
  payload : List Transaction
  parents : List Digest
  id : Digest
  signature : Sig
deriving DecidableEq, Repr

/-- Vote (`messages::Vote`). Modelled from the spec: `messages.rs` is not in the
sources; a vote carries the header id, round, header author (`origin`), the
voter (`author`) and a threshold-signature share. -/
structure Vote where
  id : Digest
  round : Nat
  origin : PublicKey
  author : PublicKey
  signature : Sig
deriving DecidableEq, Repr

/-- Certificate (`messages::Certificate`). Modelled from the spec: the `votes`
field pairs the signer bitmap (a `u128` in the source) with the aggregate
signature share. -/
structure Certificate where
  id : Digest
  round : Nat
  origin : PublicKey
  votes : Nat × Sig
deriving DecidableEq, Repr

/-- Committee (`config::Committee`). Modelled from the spec: the `config` crate
is not in the sources. It maps authorities to stake and BLS shares, exposes the
validity threshold, and carries the deterministic ordering `sorted_keys` of
public-key shares used for bitmap indexing. -/
structure Committee where
  stake : PublicKey → Nat
  validity_threshold : Nat
  get_bls_public_g2 : PublicKey → G2
  sorted_keys : List G2

/-- Error taxonomy (`error::DagError`). Modelled from the spec: `error.rs` is
not in the sources; the variants follow the spec's error-handling design. -/
inductive DagError where
  | HeaderTooOld : Digest → Nat → DagError
  | VoteTooOld : Digest → Nat → DagError
  | CertificateTooOld : Digest → Nat → DagError
  | AuthorityReuse : PublicKey → DagError
  | UnexpectedVote : Digest → DagError
  | InvalidSignature : DagError
  | StoreError : DagError
deriving DecidableEq, Repr

/-- Abstract cryptographic and serialization collaborators (the `crypto`,
`blsttc` and `bincode` crates, and `messages.rs` verification methods, none of
which are in the sources). Modelled from the spec: signature aggregation, vote
verification, header verification, signing, and canonical serialization are
opaque deterministic functions. -/
structure CryptoModel where
  aggSign : Sig → Sig → Sig
  verifyVote : Vote → Bool
  verifyHeader : Header → Bool
  verifyCert : Certificate → Bool
  signVote : PublicKey → Header → Sig
  headerId : PublicKey → Nat → List Transaction → Digest
  signHeader : PublicKey → Nat → List Transaction → Sig
  certDigest : Certificate → Digest
  encodeHeader : Header → List Nat
  encodeCert : Certificate → List Nat

/-- State of `VotesAggregator` (aggregators.rs lines 10-17). The Rust
`HashSet<PublicKey>` is modelled as a list of the inserted keys and the
`u128` bitmap as a natural number below `2^128`. -/
structure VotesAggregator where
  weight : Nat
  votes : List (G2 × Sig)
  used : List PublicKey
  agg_sign : Sig
  pk_bit_vec : Nat
  is_qc_sent : Bool
deriving DecidableEq, Repr

namespace VotesAggregator

/-- `VotesAggregator::new` (aggregators.rs lines 20-29). -/
def new : VotesAggregator :=
  { weight := 0, votes := [], used := [], agg_sign := 0, pk_bit_vec := 0,
    is_qc_sent := false }

/-- `VotesAggregator::append` (aggregators.rs lines 31-81), as a state-passing
function: the pair is (returned result, aggregator state after the call).
Mutations made before an early `?` return persist, exactly as in Rust.
The release-mode `1u128 << idx` masks the shift amount to 7 bits, hence
`idx % 128`. -/
def append (m : CryptoModel) (self : VotesAggregator) (vote : Vote)
    (committee : Committee) (header : Header) :
    Except DagError (Option Certificate) × VotesAggregator :=
  let author := vote.author
  let author_bls_g2 := committee.get_bls_public_g2 vote.author
  -- ensure!(self.used.insert(author), DagError::AuthorityReuse(author))
  if author ∈ self.used then
    (.error (.AuthorityReuse author), self)
  else
    let self := { self with
      used := author :: self.used,
      votes := self.votes ++ [(author_bls_g2, vote.signature)],
      weight := self.weight + committee.stake author }
    if self.is_qc_sent then
      (.ok none, self)
    else
      -- vote.verify(committee)?
      if m.verifyVote vote then
        let idx := committee.sorted_keys.indexOf author_bls_g2
        let self :=
          if self.votes.length = 1 then
            { self with agg_sign := vote.signature,
                        pk_bit_vec := self.pk_bit_vec ||| (1 <<< (idx % 128)) }
          else
            { self with agg_sign := m.aggSign self.agg_sign vote.signature,
                        pk_bit_vec := self.pk_bit_vec ||| (1 <<< (idx % 128)) }
        if committee.validity_threshold ≤ self.weight then
          let self := { self with weight := 0, is_qc_sent := true }
          (.ok (some { id := header.id, round := header.round,
                       origin := header.author,
                       votes := (self.pk_bit_vec, self.agg_sign) }), self)
        else
          (.ok none, self)
      else
        (.error .InvalidSignature, self)

end VotesAggregator

/-- Whether an `append` result carries a certificate. -/
def isCert (r : Except DagError (Option Certificate)) : Bool :=
  match r with
  | .ok (some _) => true
  | _ => false

/-- Feed a list of votes through one aggregator, collecting every call's
result. -/
def runAppends (m : CryptoModel) (committee : Committee) (header : Header) :
    VotesAggregator → List Vote → List (Except DagError (Option Certificate))
  | _, [] => []
  | s, v :: vs =>
      let p := s.append m v committee header
      p.1 :: runAppends m committee header p.2 vs

/-- Number of calls in a result sequence that returned a certificate. -/
def certCount (outs : List (Except DagError (Option Certificate))) : Nat :=
  (outs.filter isCert).length

/-- The post-state of the non-reuse branch of `append` before signature
bookkeeping: vote pushed, author marked used, stake added. -/
def pushVote (s : VotesAggregator) (v : Vote) (c : Committee) : VotesAggregator :=
  { s with used := v.author :: s.used,
           votes := s.votes ++ [(c.get_bls_public_g2 v.author, v.signature)],
           weight := s.weight + c.stake v.author }

/-- Final aggregator state after feeding a list of votes through `append`. -/
def runState (m : CryptoModel) (committee : Committee) (header : Header) :
    VotesAggregator → List Vote → VotesAggregator
  | s, [] => s
  | s, v :: vs => runState m committee header (s.append m v committee header).2 vs

/-- The authors whose votes a run incorporates into the aggregate signature:
those accepted (not a reuse) while the emitted flag was still unset and whose
signature share verified — exactly the calls that reach the bitmap update in
`append` (aggregators.rs lines 50-63). -/
def incorporatedAuthors (m : CryptoModel) (c : Committee) (hd : Header) :
    VotesAggregator → List Vote → List PublicKey
  | _, [] => []
  | s, v :: vs =>
      let rest := incorporatedAuthors m c hd (s.append m v c hd).2 vs
      if v.author ∉ s.used ∧ s.is_qc_sent = false ∧ m.verifyVote v = true then
        v.author :: rest
      else rest

/-- Bitmap index of an authority's public-key share: position of the share in
the committee's deterministic key ordering, masked to 7 bits as in the
release-mode `u128` shift. -/
def bitIdx (c : Committee) (a : PublicKey) : Nat :=
  c.sorted_keys.indexOf (c.get_bls_public_g2 a) % 128

/-- The bitmap contributed by a list of incorporated authors. -/
def bitsOf (c : Committee) : List PublicKey → Nat
  | [] => 0
  | a :: rest => (1 <<< bitIdx c a) ||| bitsOf c rest

/-- Number of set bits of a `u128` signer bitmap. -/
def popCount128 (n : Nat) : Nat :=
  ((Finset.range 128).filter (fun i => n.testBit i)).card

/-- Aggregate stake of the authorities recorded in a signer bitmap, reading
each set bit back through the committee's key ordering; `keyOfShare` inverts
the committee's share assignment. -/
def bitmapStake (c : Committee) (keyOfShare : G2 → PublicKey) (bv : Nat) : Nat :=
  ((List.range 128).filter (fun i => bv.testBit i)).foldr
    (fun i acc => c.stake (keyOfShare (c.sorted_keys.getD i 0)) + acc) 0

/-- Messages of the primary dispatch loop (`primary::PrimaryMessage`, the
variants handled by `Core::run`). Modelled from the spec: `primary.rs` is not
in the sources. -/
inductive PrimaryMessage where
  | header : Header → PrimaryMessage
  | vote : Vote → PrimaryMessage
  | certificate : Certificate → PrimaryMessage
  | verifiedCertificate : Certificate → PrimaryMessage
deriving DecidableEq, Repr

/-- Observable external effects of one `Core` step: reliable broadcasts and
unicasts, the consensus sink, and a re-injection into the dispatch loop via
`tx_primaries`. -/
inductive Effect where
  | BroadcastHeader : Header → Effect
  | SendVote : PublicKey → Vote → Effect
  | BroadcastCert : Certificate → Effect
  | ToConsensus : Certificate → Effect
  | Reinject : Certificate → Effect
deriving DecidableEq, Repr

/-- Association-list lookup keyed by digest, modelling `HashMap::get`. -/
def lookupD {α : Type} : List (Digest × α) → Digest → Option α
  | [], _ => none
  | (k, a) :: rest, d => if k = d then some a else lookupD rest d

/-- `HashMap::entry(k).or_insert(a)`: insert only when the key is absent. -/
def insertIfAbsent {α : Type} (l : List (Digest × α)) (k : Digest) (a : α) :
    List (Digest × α) :=
  match lookupD l k with
  | some _ => l
  | none => (k, a) :: l

/-- `HashMap::remove(k)`. -/
def removeD {α : Type} (l : List (Digest × α)) (k : Digest) : List (Digest × α) :=
  l.filter (fun p => p.1 ≠ k)

/-- Write back an in-place mutation made through `HashMap::get_mut(k)`. -/
def updateD {α : Type} (l : List (Digest × α)) (k : Digest) (a : α) :
    List (Digest × α) :=
  l.map (fun p => if p.1 = k then (k, a) else p)

/-- The mutable state of `Core` (core.rs lines 28-66) touched by the modelled
paths: the GC floor, the persistent store (as the list of written key/value
pairs), the last-voted bookkeeping, and the two in-flight maps. Network
cancel handlers are pure transport bookkeeping and are kept as effects. -/
structure CoreState where
  name : PublicKey
  gc_round : Nat
  store : List (List Nat × List Nat)
  last_voted : List (Nat × List PublicKey)
  processing_headers : List (Digest × Header)
  processing_vote_aggregators : List (Digest × VotesAggregator)
deriving Repr

/-- `Core::process_certificate` (core.rs lines 225-261): store the certificate
under its digest and forward it to the consensus sink. Send failures are
logged, not errors, so this step is infallible. -/
def process_certificate (m : CryptoModel) (s : CoreState)
    (certificate : Certificate) : CoreState × List Effect :=
  ({ s with store := s.store ++ [(m.certDigest certificate, m.encodeCert certificate)] },
   [.ToConsensus certificate])

/-- `Core::process_vote` (core.rs lines 184-222): route the vote to the
aggregator tracked for its header id; on certificate assembly, broadcast it,
evict the header/aggregator pair, and process the certificate. The aggregator
is mutated in place, so its post-`append` state persists even when `append`
returns an error. -/
def process_vote (m : CryptoModel) (committee : Committee) (s : CoreState)
    (vote : Vote) : Except DagError Unit × CoreState × List Effect :=
  match lookupD s.processing_headers vote.id,
        lookupD s.processing_vote_aggregators vote.id with
  | some header, some vote_aggregator =>
      let p := vote_aggregator.append m vote committee header
      let s := { s with processing_vote_aggregators :=
                   updateD s.processing_vote_aggregators vote.id p.2 }
      match p.1 with
      | .error e => (.error e, s, [])
      | .ok none => (.ok (), s, [])
      | .ok (some certificate) =>
          let s := { s with
            processing_headers := removeD s.processing_headers vote.id,
            processing_vote_aggregators :=
              removeD s.processing_vote_aggregators vote.id }
          let q := process_certificate m s certificate
          (.ok (), q.1, .BroadcastCert certificate :: q.2)
  | _, _ => (.ok (), s, [])

/-- `Core::process_header` (core.rs lines 141-181): persist the header keyed
by its id, create a vote on it, and either feed the vote back into vote
processing (own header) or unicast it to the header's author. -/
def process_header (m : CryptoModel) (committee : Committee) (s : CoreState)
    (header : Header) : Except DagError Unit × CoreState × List Effect :=
  let s := { s with store := s.store ++ [(header.id, m.encodeHeader header)] }
  let vote : Vote := { id := header.id, round := header.round,
                       origin := header.author, author := s.name,
                       signature := m.signVote s.name header }
  if vote.origin = s.name then
    process_vote m committee s vote
  else
    (.ok (), s, [.SendVote header.author vote])

/-- `Core::process_own_header` (core.rs lines 112-138): register the header
and a fresh aggregator in the in-flight maps under the header id, broadcast
the header, then process it. -/
def process_own_header (m : CryptoModel) (committee : Committee) (s : CoreState)
    (header : Header) : Except DagError Unit × CoreState × List Effect :=
  let s := { s with
    processing_headers := insertIfAbsent s.processing_headers header.id header,
    processing_vote_aggregators :=
      insertIfAbsent s.processing_vote_aggregators header.id VotesAggregator.new }
  let q := process_header m committee s header
  (q.1, q.2.1, .BroadcastHeader header :: q.2.2)

/-- `Core::sanitize_header` (core.rs lines 263-275): reject rounds below the
GC floor, then verify the header signature. -/
def sanitize_header (m : CryptoModel) (s : CoreState) (header : Header) :
    Except DagError Unit :=
  if s.gc_round ≤ header.round then
    if m.verifyHeader header then .ok () else .error .InvalidSignature
  else
    .error (.HeaderTooOld header.id header.round)

/-- `Core::sanitize_vote` (core.rs lines 277-291): when an in-flight header
with the vote's id exists, require the vote to match it exactly; otherwise
accept silently. There is no round check. -/
def sanitize_vote (s : CoreState) (vote : Vote) : Except DagError Unit :=
  match lookupD s.processing_headers vote.id with
  | some header =>
      if vote.id = header.id ∧ vote.origin = header.author ∧
         vote.round = header.round then .ok ()
      else .error (.UnexpectedVote vote.id)
  | none => .ok ()

/-- `Core::sanitize_certificate` (core.rs lines 293-320): reject rounds below
the GC floor; otherwise the background pool verifies the certificate,
discards the verification result (`let _ = certificate.verify(..)`), and
re-injects the certificate unconditionally via `tx_primaries`. -/
def sanitize_certificate (m : CryptoModel) (s : CoreState)
    (certificate : Certificate) : Except DagError Unit × List Effect :=
  if s.gc_round ≤ certificate.round then
    let _ := m.verifyCert certificate
    (.ok (), [.Reinject certificate])
  else
    (.error (.CertificateTooOld (m.certDigest certificate) certificate.round), [])

/-- One `rx_primaries` dispatch of `Core::run` (core.rs lines 330-354). -/
def handleMessage (m : CryptoModel) (committee : Committee) (s : CoreState) :
    PrimaryMessage → Except DagError Unit × CoreState × List Effect
  | .header h =>
      match sanitize_header m s h with
      | .ok _ => process_header m committee s h
      | .error e => (.error e, s, [])
  | .vote v =>
      match sanitize_vote s v with
      | .ok _ => process_vote m committee s v
      | .error e => (.error e, s, [])
  | .certificate c =>
      let q := sanitize_certificate m s c
      (q.1, s, q.2)
  | .verifiedCertificate c =>
      let q := process_certificate m s c
      (.ok (), q.1, q.2)

/-- The event sources of the `tokio::select!` in `Core::run`
(core.rs lines 328-368). -/
inductive CoreInput where
  | primary : PrimaryMessage → CoreInput
  | headerWaiter : Header → CoreInput
  | certWaiter : Certificate → CoreInput
  | proposer : Header → CoreInput
deriving Repr

/-- Dispatch of one event from any source (core.rs lines 328-368). -/
def coreStep (m : CryptoModel) (committee : Committee) (s : CoreState) :
    CoreInput → Except DagError Unit × CoreState × List Effect
  | .primary msg => handleMessage m committee s msg
  | .headerWaiter h => process_header m committee s h
  | .certWaiter c =>
      let q := process_certificate m s c
      (.ok (), q.1, q.2)
  | .proposer h => process_own_header m committee s h

/-- The garbage-collection sweep run after each event (core.rs lines 381-390):
when the externally reported consensus round exceeds the GC depth, advance
`gc_round` and prune per-round bookkeeping below it. -/
def gcStep (s : CoreState) (consensus_round gc_depth : Nat) : CoreState :=
  if gc_depth < consensus_round then
    let gcr := consensus_round - gc_depth
    { s with last_voted := s.last_voted.filter (fun p => gcr ≤ p.1),
             gc_round := gcr }
  else s

/-- Run the dispatch loop over a list of (event, consensus round) pairs. -/
def runCore (m : CryptoModel) (committee : Committee) (gc_depth : Nat) :
    CoreState → List (CoreInput × Nat) → CoreState
  | s, [] => s
  | s, (inp, r) :: rest =>
      runCore m committee gc_depth
        (gcStep (coreStep m committee s inp).2.1 r gc_depth) rest

/-- `Core` state at spawn (core.rs lines 86-106): GC floor 0, empty store and
empty in-flight maps. -/
def initialCore (name : PublicKey) : CoreState :=
  { name := name, gc_round := 0, store := [], last_voted := [],
    processing_headers := [], processing_vote_aggregators := [] }

/-- The two in-flight maps track exactly the same set of digests. -/
def sameKeys (s : CoreState) : Prop :=
  ∀ d : Digest, (lookupD s.processing_headers d).isSome =
    (lookupD s.processing_vote_aggregators d).isSome

/-- Messages to the `HeaderWaiter` (`header_waiter::WaiterMessage`,
synchronizer.rs line 67). Modelled from the spec: `header_waiter.rs` is not in
the sources; the request carries the full missing set and the header. -/
inductive WaiterMessage where
  | SyncBatches : List Transaction → Header → WaiterMessage
deriving DecidableEq, Repr

/-- State of `Synchronizer` (synchronizer.rs lines 12-19). -/
structure SynchronizerState where
  name : PublicKey
  store : List (List Nat × List Nat)
deriving Repr

/-- `worker_id.to_le_bytes()`: little-endian byte encoding of the worker id. -/
def leBytes4 (w : Nat) : List Nat :=
  [w % 256, w / 256 % 256, w / 2 ^ 16 % 256, w / 2 ^ 24 % 256]

/-- The store key of a payload entry: `digest ‖ worker_id`
(synchronizer.rs line 56). -/
def payloadKey (p : Transaction) : List Nat :=
  p.1 ++ leBytes4 p.2

/-- `store.read(key).is_some()`: whether the store holds an entry for a key. -/
def storeHas (store : List (List Nat × List Nat)) (k : List Nat) : Bool :=
  store.any (fun e => e.1 = k)

/-- `Synchronizer::missing_payload` (synchronizer.rs lines 37-71): own-author
headers are never missing; otherwise collect the payload entries absent from
the store and, when any are, send one batched `SyncBatches` request. The pair
is (returned boolean, message sent to the waiter, if any). -/
def missing_payload (s : SynchronizerState) (header : Header) :
    Bool × Option WaiterMessage :=
  if header.author = s.name then (false, none)
  else
    let missing := header.payload.filter
      (fun p => !storeHas s.store (payloadKey p))
    if missing.isEmpty then (false, none)
    else (true, some (.SyncBatches missing header))

/-- State of `Proposer` (proposer.rs lines 16-35), with the pinned timer's
deadline made explicit. -/
structure ProposerState where
  name : PublicKey
  header_size : Nat
  max_header_delay : Nat
  round : Nat
  txns : List Transaction
  payload_size : Nat
  deadline : Nat
deriving Repr

/-- The header-creation check at the top of `Proposer::run`
(proposer.rs lines 109-119) together with `make_header`
(proposer.rs lines 64-95): when enough digests accumulated or the timer
elapsed on a non-empty buffer, drain the buffer into a new header, reset the
size accumulator, and reschedule the timer deadline. -/
def proposerCheck (m : CryptoModel) (s : ProposerState) (timer_expired : Bool)
    (now : Nat) : Option Header × ProposerState :=
  let enough_digests := s.header_size ≤ s.payload_size
  if (timer_expired && decide (0 < s.payload_size)) || enough_digests then
    let header : Header := { author := s.name, round := s.round,
                             payload := s.txns, parents := [],
                             id := m.headerId s.name s.round s.txns,
                             signature := m.signHeader s.name s.round s.txns }
    (some header, { s with txns := [], payload_size := 0,
                           deadline := now + s.max_header_delay })
  else
    (none, s)

/-- The worker branch of the `Proposer::run` select (proposer.rs
lines 122-126): extend the buffer and add the serialized sizes. -/
def proposerReceive (szLen : Transaction → Nat) (s : ProposerState)
    (transactions : List Transaction) : ProposerState :=
  { s with payload_size := s.payload_size + (transactions.map szLen).sum,
           txns := s.txns ++ transactions }

/-- Concrete crypto oracle used by witnesses and counterexamples: a vote or
certificate share verifies exactly when it is nonzero. -/
def cxModel : CryptoModel :=
  { aggSign := fun a b => a + b,
    verifyVote := fun v => v.signature != 0,
    verifyHeader := fun h => h.signature != 0,
    verifyCert := fun c => c.votes.2 != 0,
    signVote := fun n _ => n + 1,
    headerId := fun n r _ => [n, r],
    signHeader := fun n _ _ => n + 2,
    certDigest := fun c => 99 :: c.id,
    encodeHeader := fun h => h.id,
    encodeCert := fun c => c.id }

/-- Concrete two-authority committee: stakes 1 and 1, validity threshold 2,
identity share assignment. -/
def cxCommittee : Committee :=
  { stake := fun _ => 1,
    validity_threshold := 2,
    get_bls_public_g2 := fun a => a,
    sorted_keys := [0, 1] }

/-- Concrete header authored by authority 0 at round 1. -/
def cxHeader : Header :=
  { author := 0, round := 1, payload := [], parents := [], id := [7],
    signature := 3 }

/-- Vote on `cxHeader` by authority 0 whose signature share is invalid. -/
def cxVoteA : Vote :=
  { id := [7], round := 1, origin := 0, author := 0, signature := 0 }

/-- Valid vote on `cxHeader` by authority 1. -/
def cxVoteB : Vote :=
  { id := [7], round := 1, origin := 0, author := 1, signature := 5 }

/-- Core state of authority 0 with GC floor 5 and no in-flight headers. -/
def cxCoreState : CoreState :=
  { name := 0, gc_round := 5, store := [], last_voted := [],
    processing_headers := [], processing_vote_aggregators := [] }

/-- A certificate at round 6 whose aggregate signature is invalid under
`cxModel`. -/
def cxBadCert : Certificate :=
  { id := [7], round := 6, origin := 1, votes := (3, 0) }

/-- An aggregator that has already accepted a vote from authority 0. -/
def cxAgg1 : VotesAggregator :=
  { weight := 1, votes := [(0, 5)], used := [0], agg_sign := 5, pk_bit_vec := 1,
    is_qc_sent := false }

/-- A vote whose round 3 is below `cxCoreState`'s GC floor 5. -/
def cxOldVote : Vote :=
  { id := [9], round := 3, origin := 1, author := 1, signature := 4 }

/-- A header whose round 3 is below `cxCoreState`'s GC floor 5. -/
def cxOldHeader : Header :=
  { author := 1, round := 3, payload := [], parents := [], id := [9],
    signature := 4 }

/-- A certificate whose round 3 is below `cxCoreState`'s GC floor 5. -/
def cxOldCert : Certificate :=
  { id := [9], round := 3, origin := 1, votes := (1, 4) }

/-- Core state of authority 0 tracking `cxHeader` in both in-flight maps. -/
def cxTrackedState : CoreState :=
  { name := 0, gc_round := 0, store := [], last_voted := [],
    processing_headers := [([7], cxHeader)],
    processing_vote_aggregators := [([7], VotesAggregator.new)] }

/-- A vote on the tracked header id `[7]` whose round does not match
`cxHeader.round`. -/
def cxBadVote : Vote :=
  { id := [7], round := 2, origin := 0, author := 1, signature := 5 }

/-- Proposer state whose accumulated payload size 3 meets the header-size
threshold 2. -/
def cxProposer : ProposerState :=
  { name := 0, header_size := 2, max_header_delay := 10, round := 1,
    txns := [([1], 0)], payload_size := 3, deadline := 0 }

/-- The header `cxProposer` creates on trigger. -/
def cxProposedHeader : Header :=
  { author := 0, round := 1, payload := [([1], 0)], parents := [], id := [0, 1],
    signature := 2 }

/-- `cxProposer` after the trigger at time 100: drained buffer, zero size,
deadline 110. -/
def cxProposerAfter : ProposerState :=
  { cxProposer with txns := [], payload_size := 0, deadline := 110 }

/-- Synchronizer state of authority 0 whose store holds only the key of the
payload entry `([1, 2], 0)`. -/
def cxSyncState : SynchronizerState :=
  { name := 0, store := [([1, 2, 0, 0, 0, 0], [1])] }

/-- A header by authority 1 whose second payload entry is absent from
`cxSyncState`'s store. -/
def cxMissingHeader : Header :=
  { author := 1, round := 1, payload := [([1, 2], 0), ([3], 1)], parents := [],
    id := [8], signature := 2 }

/-- Case characterization of `append`, used by every proof below. -/
lemma append_eq (m : CryptoModel) (s : VotesAggregator) (v : Vote)
    (c : Committee) (hd : Header) :
    s.append m v c hd =
      (if v.author ∈ s.used then (.error (.AuthorityReuse v.author), s) else
       if s.is_qc_sent then (.ok none, pushVote s v c) else
       if m.verifyVote v then
         let bv := s.pk_bit_vec |||
           1 <<< (c.sorted_keys.indexOf (c.get_bls_public_g2 v.author) % 128)
         let sg := if s.votes = [] then v.signature
                   else m.aggSign s.agg_sign v.signature
         if c.validity_threshold ≤ s.weight + c.stake v.author then
           (.ok (some { id := hd.id, round := hd.round, origin := hd.author,
                        votes := (bv, sg) }),
            { pushVote s v c with weight := 0, agg_sign := sg,
                                  pk_bit_vec := bv, is_qc_sent := true })
         else (.ok none, { pushVote s v c with agg_sign := sg, pk_bit_vec := bv })
       else (.error .InvalidSignature, pushVote s v c)) := by
  unfold VotesAggregator.append pushVote
  by_cases h1 : v.author ∈ s.used
  · simp [h1]
  · by_cases h2 : s.is_qc_sent <;> by_cases h3 : m.verifyVote v <;>
      by_cases h4 : s.votes = [] <;>
      by_cases h5 : c.validity_threshold ≤ s.weight + c.stake v.author <;>
      simp [h1, h2, h3, h4, h5, List.length_eq_zero]

lemma append_sent_mono (m : CryptoModel) (s : VotesAggregator) (v : Vote)
    (c : Committee) (hd : Header) (h : s.is_qc_sent = true) :
    (s.append m v c hd).2.is_qc_sent = true ∧ isCert (s.append m v c hd).1 = false := by
  rw [append_eq]
  by_cases h1 : v.author ∈ s.used <;> simp [h1, h, isCert, pushVote]

lemma append_cert_sent (m : CryptoModel) (s : VotesAggregator) (v : Vote)
    (c : Committee) (hd : Header) (h : isCert (s.append m v c hd).1 = true) :
    (s.append m v c hd).2.is_qc_sent = true := by
  rw [append_eq] at h ⊢
  by_cases h1 : v.author ∈ s.used
  · simp [h1, isCert] at h
  · by_cases h2 : s.is_qc_sent
    · simp [h1, h2, isCert] at h
    · by_cases h3 : m.verifyVote v
      · by_cases h5 : c.validity_threshold ≤ s.weight + c.stake v.author
        · simp [h1, h2, h3, h5]
        · simp [h1, h2, h3, h5, isCert] at h
      · simp [h1, h2, h3, isCert] at h

lemma certCount_cons (r : Except DagError (Option Certificate))
    (rs : List (Except DagError (Option Certificate))) :
    certCount (r :: rs) = (if isCert r = true then 1 else 0) + certCount rs := by
  simp only [certCount, List.filter_cons]
  split
  · simp [Nat.add_comm]
  · simp

lemma runAppends_cons (m : CryptoModel) (c : Committee) (hd : Header)
    (s : VotesAggregator) (v : Vote) (vs : List Vote) :
    runAppends m c hd s (v :: vs) =
      (s.append m v c hd).1 :: runAppends m c hd (s.append m v c hd).2 vs := rfl

lemma runAppends_sent (m : CryptoModel) (c : Committee) (hd : Header)
    (vs : List Vote) :
    ∀ s : VotesAggregator, s.is_qc_sent = true →
      certCount (runAppends m c hd s vs) = 0 := by
  induction vs with
  | nil => intro s _; simp [runAppends, certCount]
  | cons v vs ih =>
      intro s hs
      obtain ⟨h1, h2⟩ := append_sent_mono m s v c hd hs
      rw [runAppends_cons, certCount_cons, h2, ih _ h1]
      simp

lemma runAppends_le_one (m : CryptoModel) (c : Committee) (hd : Header)
    (vs : List Vote) :
    ∀ s : VotesAggregator, certCount (runAppends m c hd s vs) ≤ 1 := by
  induction vs with
  | nil => intro s; simp [runAppends, certCount]
  | cons v vs ih =>
      intro s
      rw [runAppends_cons, certCount_cons]
      by_cases h : isCert (s.append m v c hd).1 = true
      · rw [runAppends_sent m c hd vs _ (append_cert_sent m s v c hd h)]
        simp [h]
      · simp only [h, if_false]
        simpa using ih _

/-- C1: for every sequence of calls to `VotesAggregator::append` on one
aggregator instance started from `new`, at most one call returns a
certificate; once the emitted flag is set every later call returns
`Ok(None)` or an error, never a second certificate. -/
theorem votes_aggregator_at_most_one_certificate
    (m : CryptoModel) (c : Committee) (hd : Header) (vs : List Vote) :
    certCount (runAppends m c hd VotesAggregator.new vs) ≤ 1 :=
  runAppends_le_one m c hd vs VotesAggregator.new

/-- C5: an `append` call whose voting authority has already contributed
returns `AuthorityReuse` and leaves the aggregator state — aggregate
signature, signer bitmap, accumulated weight and vote list — unchanged. -/
theorem append_authority_reuse (m : CryptoModel) (s : VotesAggregator)
    (v : Vote) (c : Committee) (hd : Header) (h : v.author ∈ s.used) :
    s.append m v c hd = (.error (.AuthorityReuse v.author), s) := by
  rw [append_eq]
  simp [h]

/-- Witness for C5 at a concrete reused authority. -/
theorem append_authority_reuse_witness :
    (0 : PublicKey) ∈ cxAgg1.used ∧
    cxAgg1.append cxModel cxVoteA cxCommittee cxHeader =
      (.error (.AuthorityReuse 0), cxAgg1) :=
  ⟨by decide, append_authority_reuse cxModel cxAgg1 cxVoteA cxCommittee cxHeader
    (by decide)⟩

/-- C2 (amended): one `append` call returns a certificate exactly when the
voting authority is fresh, the emitted flag is unset, the vote's signature
verifies, and the accumulated weight — which counts every previously accepted
vote, including votes whose signature verification failed — plus this vote's
stake reaches the validity threshold. -/
theorem append_emits_iff (m : CryptoModel) (s : VotesAggregator) (v : Vote)
    (c : Committee) (hd : Header) :
    isCert (s.append m v c hd).1 = true ↔
      (v.author ∉ s.used ∧ s.is_qc_sent = false ∧ m.verifyVote v = true ∧
       c.validity_threshold ≤ s.weight + c.stake v.author) := by
  rw [append_eq]
  by_cases h1 : v.author ∈ s.used
  · simp [h1, isCert]
  · by_cases h2 : s.is_qc_sent <;> by_cases h3 : m.verifyVote v <;>
      by_cases h5 : c.validity_threshold ≤ s.weight + c.stake v.author <;>
      simp [h1, h2, h3, h5, isCert]

/-- C2 counterexample: authority 0's vote fails signature verification yet its
stake still counts, so authority 1's valid vote triggers a certificate whose
signer bitmap records only authority 1 — aggregate bitmap stake 1, strictly
below the validity threshold 2. Incorporated (verified) stake never reached
the threshold, yet a certificate was produced. -/
theorem cert_emitted_below_incorporated_stake :
    runAppends cxModel cxCommittee cxHeader VotesAggregator.new
        [cxVoteA, cxVoteB] =
      [.error .InvalidSignature,
       .ok (some { id := [7], round := 1, origin := 0, votes := (2, 5) })] ∧
    bitmapStake cxCommittee id 2 = 1 ∧
    cxCommittee.validity_threshold = 2 := by
  refine ⟨by rfl, by decide, rfl⟩

/-- C3: the certificate at round 6 fails aggregate-signature verification and
is at or above the GC floor, yet `sanitize_certificate` re-injects it into the
dispatch loop as a `VerifiedCertificate` — the pool computes the verification
result and discards it. -/
theorem certificate_reinjected_despite_failed_verification :
    cxModel.verifyCert cxBadCert = false ∧
    cxCoreState.gc_round ≤ cxBadCert.round ∧
    sanitize_certificate cxModel cxCoreState cxBadCert =
      (.ok (), [.Reinject cxBadCert]) := by
  refine ⟨by decide, by decide, rfl⟩

/-- C4 (amended): an inbound header or certificate whose round is strictly
below `gc_round` is rejected with `HeaderTooOld` respectively
`CertificateTooOld` and mutates nothing; votes are not round-checked — a vote
below the floor whose header id is untracked is a silent error-free no-op. -/
theorem core_gc_floor_rejection (m : CryptoModel) (committee : Committee)
    (s : CoreState) (h : Header) (v : Vote) (c : Certificate)
    (hh : h.round < s.gc_round) (hc : c.round < s.gc_round)
    (_hv : v.round < s.gc_round)
    (hvu : lookupD s.processing_headers v.id = none) :
    handleMessage m committee s (.header h) =
      (.error (.HeaderTooOld h.id h.round), s, []) ∧
    handleMessage m committee s (.certificate c) =
      (.error (.CertificateTooOld (m.certDigest c) c.round), s, []) ∧
    handleMessage m committee s (.vote v) = (.ok (), s, []) := by
  refine ⟨?_, ?_, ?_⟩
  · simp [handleMessage, sanitize_header, Nat.not_le.mpr hh]
  · simp [handleMessage, sanitize_certificate, Nat.not_le.mpr hc]
  · simp [handleMessage, sanitize_vote, hvu, process_vote]

/-- Witness for C4 (amended) at concrete round-3 messages against GC floor 5. -/
theorem core_gc_floor_rejection_witness :
    cxOldHeader.round < cxCoreState.gc_round ∧
    handleMessage cxModel cxCommittee cxCoreState (.header cxOldHeader) =
      (.error (.HeaderTooOld [9] 3), cxCoreState, []) ∧
    handleMessage cxModel cxCommittee cxCoreState (.certificate cxOldCert) =
      (.error (.CertificateTooOld (99 :: [9]) 3), cxCoreState, []) ∧
    handleMessage cxModel cxCommittee cxCoreState (.vote cxOldVote) =
      (.ok (), cxCoreState, []) := by
  have h := core_gc_floor_rejection cxModel cxCommittee cxCoreState cxOldHeader
    cxOldVote cxOldCert (by decide) (by decide) (by decide) (by decide)
  exact ⟨by decide, h.1, h.2.1, h.2.2⟩

/-- C4 counterexample: the round-3 vote is below the GC floor 5, yet `Core`
accepts it with `Ok` — no `VoteTooOld` rejection exists in `sanitize_vote`. -/
theorem old_vote_not_rejected :
    cxOldVote.round < cxCoreState.gc_round ∧
    handleMessage cxModel cxCommittee cxCoreState (.vote cxOldVote) =
      (.ok (), cxCoreState, []) :=
  ⟨by decide, rfl⟩

lemma append_error_cases (m : CryptoModel) (s : VotesAggregator) (v : Vote)
    (c : Committee) (hd : Header) (e : DagError)
    (h : (s.append m v c hd).1 = .error e) :
    e = .AuthorityReuse v.author ∨ e = .InvalidSignature := by
  rw [append_eq] at h
  by_cases h1 : v.author ∈ s.used
  · simp [h1] at h
    exact Or.inl h.symm
  · by_cases h2 : s.is_qc_sent
    · simp [h1, h2] at h
    · by_cases h3 : m.verifyVote v
      · by_cases h5 : c.validity_threshold ≤ s.weight + c.stake v.author <;>
          simp [h1, h2, h3, h5] at h
      · simp [h1, h2, h3] at h
        exact Or.inr h.symm

lemma process_vote_not_unexpected (m : CryptoModel) (committee : Committee)
    (s : CoreState) (v : Vote) (d : Digest) :
    (process_vote m committee s v).1 ≠ .error (.UnexpectedVote d) := by
  unfold process_vote
  cases hh : lookupD s.processing_headers v.id with
  | none => simp
  | some hdr =>
    cases ha : lookupD s.processing_vote_aggregators v.id with
    | none => simp
    | some agg =>
      simp only
      cases hr : (agg.append m v committee hdr).1 with
      | error e =>
          rcases append_error_cases m agg v committee hdr e hr with h | h <;>
            simp [hr, h]
      | ok oc => cases oc <;> simp [hr]

/-- C7: when an in-flight header with the vote's id is tracked, `Core` rejects
the vote with `UnexpectedVote` exactly when its id, origin or round differs
from the tracked header's id, author or round; when no in-flight header with
that id exists, the vote is an error-free no-op changing no state and sending
nothing. -/
theorem core_vote_sanitation (m : CryptoModel) (committee : Committee)
    (s : CoreState) (v : Vote) :
    (∀ hdr, lookupD s.processing_headers v.id = some hdr →
       ((handleMessage m committee s (.vote v)).1 =
           .error (.UnexpectedVote v.id) ↔
         ¬(v.id = hdr.id ∧ v.origin = hdr.author ∧ v.round = hdr.round))) ∧
    (lookupD s.processing_headers v.id = none →
       handleMessage m committee s (.vote v) = (.ok (), s, [])) := by
  constructor
  · intro hdr hlk
    by_cases hmatch : v.id = hdr.id ∧ v.origin = hdr.author ∧ v.round = hdr.round
    · have hok : sanitize_vote s v = .ok () := by
        unfold sanitize_vote
        rw [hlk]
        exact if_pos hmatch
      simp only [handleMessage, hok]
      exact ⟨fun h => absurd h (process_vote_not_unexpected m committee s v v.id),
             fun h => absurd hmatch h⟩
    · have herr : sanitize_vote s v = .error (.UnexpectedVote v.id) := by
        unfold sanitize_vote
        rw [hlk]
        exact if_neg hmatch
      simp [handleMessage, herr, hmatch]
  · intro hlk
    simp [handleMessage, sanitize_vote, hlk, process_vote]

/-- Witness for C7: a mismatching vote on the tracked header id is rejected
with `UnexpectedVote`, and a vote on an untracked id is a no-op. -/
theorem core_vote_sanitation_witness :
    (handleMessage cxModel cxCommittee cxTrackedState (.vote cxBadVote)).1 =
      .error (.UnexpectedVote [7]) ∧
    handleMessage cxModel cxCommittee cxCoreState (.vote cxOldVote) =
      (.ok (), cxCoreState, []) := by
  constructor
  · exact ((core_vote_sanitation cxModel cxCommittee cxTrackedState
      cxBadVote).1 cxHeader (by decide)).mpr (by decide)
  · exact (core_vote_sanitation cxModel cxCommittee cxCoreState
      cxOldVote).2 (by decide)

/-- C8: `missing_payload` returns `false` for headers authored by the local
authority regardless of payload; for another author it returns `true` exactly
when some payload entry's key `digest ‖ worker_id` is absent from the store,
in which case one batched `SyncBatches` request carrying exactly the missing
entries and the header goes to the waiter, and nothing is sent otherwise. -/
theorem missing_payload_spec (s : SynchronizerState) (h : Header) :
    (h.author = s.name → missing_payload s h = (false, none)) ∧
    (h.author ≠ s.name →
      (((missing_payload s h).1 = true) ↔
        ∃ p ∈ h.payload, storeHas s.store (payloadKey p) = false) ∧
      ((missing_payload s h).1 = true →
        ∃ l, (missing_payload s h).2 = some (.SyncBatches l h) ∧
          ∀ p, p ∈ l ↔
            (p ∈ h.payload ∧ storeHas s.store (payloadKey p) = false)) ∧
      ((missing_payload s h).1 = false → (missing_payload s h).2 = none)) := by
  by_cases ha : h.author = s.name
  · refine ⟨fun _ => ?_, fun hne => absurd ha hne⟩
    unfold missing_payload
    rw [if_pos ha]
  · refine ⟨fun hc => absurd hc ha, fun _ => ?_⟩
    have hrw : missing_payload s h =
        (if (h.payload.filter (fun p => !storeHas s.store (payloadKey p))).isEmpty
         then (false, none)
         else (true, some (.SyncBatches
           (h.payload.filter (fun p => !storeHas s.store (payloadKey p))) h))) := by
      simp only [missing_payload, if_neg ha]
    by_cases hm :
        (h.payload.filter (fun p => !storeHas s.store (payloadKey p))).isEmpty
    · rw [hrw, if_pos hm]
      rw [List.isEmpty_iff] at hm
      refine ⟨⟨fun hc => absurd hc (by simp), ?_⟩,
              fun hc => absurd hc (by simp), fun _ => rfl⟩
      rintro ⟨p, hp, hps⟩
      have h2 := List.filter_eq_nil_iff.mp hm p hp
      simp [hps] at h2
    · rw [hrw, if_neg hm]
      have hne :
          h.payload.filter (fun p => !storeHas s.store (payloadKey p)) ≠ [] := by
        simpa [List.isEmpty_iff] using hm
      refine ⟨⟨fun _ => ?_, fun _ => rfl⟩,
              fun _ => ⟨_, rfl, fun p => ?_⟩, fun hc => absurd hc (by simp)⟩
      · rcases List.exists_mem_of_ne_nil _ hne with ⟨p, hp⟩
        rw [List.mem_filter] at hp
        exact ⟨p, hp.1, by simpa using hp.2⟩
      · rw [List.mem_filter]
        simp

/-- Witness for C8: the local author short-circuit and a header with one
missing payload entry. -/
theorem missing_payload_spec_witness :
    missing_payload { cxSyncState with name := 1 } cxMissingHeader =
      (false, none) ∧
    (missing_payload cxSyncState cxMissingHeader).1 = true := by
  constructor
  · exact (missing_payload_spec { cxSyncState with name := 1 }
      cxMissingHeader).1 (by decide)
  · exact ((missing_payload_spec cxSyncState cxMissingHeader).2
      (by decide)).1.mpr ⟨([3], 1), by decide, by decide⟩

/-- C9: the Proposer creates a header exactly when the accumulated payload
size reaches the header-size threshold or the timer has elapsed with a
strictly positive accumulated size — never on timer expiry with an empty
buffer — and on each trigger it drains the whole buffer into the header's
payload, zeroes the size accumulator, and resets the timer deadline to
`now + max_header_delay`. -/
theorem proposer_trigger (m : CryptoModel) (s : ProposerState)
    (timer_expired : Bool) (now : Nat) :
    ((proposerCheck m s timer_expired now).1.isSome = true ↔
       (s.header_size ≤ s.payload_size ∨
        (timer_expired = true ∧ 0 < s.payload_size))) ∧
    (∀ hdr s', proposerCheck m s timer_expired now = (some hdr, s') →
       hdr.payload = s.txns ∧ hdr.round = s.round ∧ hdr.author = s.name ∧
       s'.txns = [] ∧ s'.payload_size = 0 ∧
       s'.deadline = now + s.max_header_delay) := by
  unfold proposerCheck
  by_cases h1 : s.header_size ≤ s.payload_size <;>
    by_cases h2 : timer_expired = true <;>
    by_cases h3 : 0 < s.payload_size <;>
    exact ⟨by simp [h1, h2, h3], by simp [h1, h2, h3]⟩

lemma lookupD_removeD {α : Type} (l : List (Digest × α)) (k d : Digest) :
    lookupD (removeD l k) d = if d = k then none else lookupD l d := by
  induction l with
  | nil => simp [removeD, lookupD]
  | cons p rest ih =>
      obtain ⟨a, b⟩ := p
      by_cases hak : a = k
      · subst hak
        have hfilter : removeD ((a, b) :: rest) a = removeD rest a := by
          simp [removeD]
        rw [hfilter, ih]
        by_cases hdk : d = a
        · simp [hdk]
        · have had : ¬ a = d := fun hh => hdk hh.symm
          simp [lookupD, hdk, had]
      · have hfilter : removeD ((a, b) :: rest) k = (a, b) :: removeD rest k := by
          simp [removeD, hak]
        rw [hfilter]
        by_cases had : a = d
        · subst had
          simp [lookupD, hak]
        · simp [lookupD, had, ih]

lemma lookupD_updateD {α : Type} (l : List (Digest × α)) (k d : Digest) (a : α) :
    (lookupD (updateD l k a) d).isSome = (lookupD l d).isSome := by
  induction l with
  | nil => simp [updateD, lookupD]
  | cons p rest ih =>
      obtain ⟨x, b⟩ := p
      by_cases hxk : x = k
      · subst hxk
        have hmap : updateD ((x, b) :: rest) x a = (x, a) :: updateD rest x a := by
          simp [updateD]
        rw [hmap]
        by_cases hxd : x = d
        · simp [lookupD, hxd]
        · simp [lookupD, hxd, ih]
      · have hmap : updateD ((x, b) :: rest) k a = (x, b) :: updateD rest k a := by
          simp [updateD, hxk]
        rw [hmap]
        by_cases hxd : x = d
        · simp [lookupD, hxd]
        · simp [lookupD, hxd, ih]

lemma lookupD_insertIfAbsent {α : Type} (l : List (Digest × α)) (k d : Digest)
    (a : α) :
    (lookupD (insertIfAbsent l k a) d).isSome =
      (decide (d = k) || (lookupD l d).isSome) := by
  unfold insertIfAbsent
  cases hk : lookupD l k with
  | some x =>
      by_cases hdk : d = k
      · subst hdk
        simp [hk]
      · simp [hdk]
  | none =>
      by_cases hdk : d = k
      · subst hdk
        simp [lookupD, hk]
      · have hkd : ¬ k = d := fun hh => hdk hh.symm
        simp [lookupD, hdk, hkd]

lemma sameKeys_process_certificate (m : CryptoModel) (s : CoreState)
    (c : Certificate) (h : sameKeys s) :
    sameKeys (process_certificate m s c).1 := by
  intro d
  simpa [process_certificate] using h d

lemma sameKeys_process_vote (m : CryptoModel) (committee : Committee)
    (s : CoreState) (v : Vote) (h : sameKeys s) :
    sameKeys (process_vote m committee s v).2.1 := by
  unfold process_vote
  cases hh : lookupD s.processing_headers v.id with
  | none => simpa using h
  | some hdr =>
    cases ha : lookupD s.processing_vote_aggregators v.id with
    | none => simpa using h
    | some agg =>
      cases hr : (agg.append m v committee hdr).1 with
      | error e =>
          simp only [hr]
          intro d
          simp [lookupD_updateD, h d]
      | ok oc =>
        cases oc with
        | none =>
            simp only [hr]
            intro d
            simp [lookupD_updateD, h d]
        | some cert =>
            simp only [hr]
            intro d
            by_cases hd : d = v.id <;>
              simp [process_certificate, lookupD_removeD, lookupD_updateD,
                    hd, h d]

lemma sameKeys_process_header (m : CryptoModel) (committee : Committee)
    (s : CoreState) (hd : Header) (h : sameKeys s) :
    sameKeys (process_header m committee s hd).2.1 := by
  simp only [process_header]
  split
  · exact sameKeys_process_vote m committee _ _ (fun d => h d)
  · exact fun d => h d

lemma sameKeys_process_own_header (m : CryptoModel) (committee : Committee)
    (s : CoreState) (hd : Header) (h : sameKeys s) :
    sameKeys (process_own_header m committee s hd).2.1 := by
  unfold process_own_header
  simp only
  apply sameKeys_process_header
  intro d
  simp [lookupD_insertIfAbsent, h d]

lemma sameKeys_coreStep (m : CryptoModel) (committee : Committee)
    (s : CoreState) (inp : CoreInput) (h : sameKeys s) :
    sameKeys (coreStep m committee s inp).2.1 := by
  cases inp with
  | primary msg =>
    cases msg with
    | header hd =>
        simp only [coreStep, handleMessage]
        cases hs : sanitize_header m s hd with
        | ok u => exact sameKeys_process_header m committee s hd h
        | error e => exact h
    | vote v =>
        simp only [coreStep, handleMessage]
        cases hs : sanitize_vote s v with
        | ok u => exact sameKeys_process_vote m committee s v h
        | error e => exact h
    | certificate c =>
        simp only [coreStep, handleMessage]
        exact h
    | verifiedCertificate c =>
        simp only [coreStep, handleMessage]
        exact sameKeys_process_certificate m s c h
  | headerWaiter hd =>
      simp only [coreStep]
      exact sameKeys_process_header m committee s hd h
  | certWaiter c =>
      simp only [coreStep]
      exact sameKeys_process_certificate m s c h
  | proposer hd =>
      simp only [coreStep]
      exact sameKeys_process_own_header m committee s hd h

lemma sameKeys_gcStep (s : CoreState) (r depth : Nat) (h : sameKeys s) :
    sameKeys (gcStep s r depth) := by
  unfold gcStep
  split
  · exact fun d => h d
  · exact h

lemma sameKeys_runCore (m : CryptoModel) (committee : Committee)
    (gc_depth : Nat) (inputs : List (CoreInput × Nat)) :
    ∀ s : CoreState, sameKeys s →
      sameKeys (runCore m committee gc_depth s inputs) := by
  induction inputs with
  | nil => exact fun s h => h
  | cons p rest ih =>
      intro s h
      exact ih _ (sameKeys_gcStep _ _ _ (sameKeys_coreStep m committee s p.1 h))

lemma incorporatedAuthors_cons (m : CryptoModel) (c : Committee) (hd : Header)
    (s : VotesAggregator) (v : Vote) (vs : List Vote) :
    incorporatedAuthors m c hd s (v :: vs) =
      if v.author ∉ s.used ∧ s.is_qc_sent = false ∧ m.verifyVote v = true then
        v.author :: incorporatedAuthors m c hd (s.append m v c hd).2 vs
      else incorporatedAuthors m c hd (s.append m v c hd).2 vs := rfl

lemma runState_cons (m : CryptoModel) (c : Committee) (hd : Header)
    (s : VotesAggregator) (v : Vote) (vs : List Vote) :
    runState m c hd s (v :: vs) = runState m c hd (s.append m v c hd).2 vs := rfl

lemma append_pk_bit_vec (m : CryptoModel) (s : VotesAggregator) (v : Vote)
    (c : Committee) (hd : Header) :
    (s.append m v c hd).2.pk_bit_vec =
      (if v.author ∉ s.used ∧ s.is_qc_sent = false ∧ m.verifyVote v = true then
        s.pk_bit_vec ||| 1 <<< bitIdx c v.author
      else s.pk_bit_vec) := by
  rw [append_eq]
  by_cases h1 : v.author ∈ s.used
  · simp [h1, bitIdx]
  · by_cases h2 : s.is_qc_sent <;> by_cases h3 : m.verifyVote v <;>
      by_cases h5 : c.validity_threshold ≤ s.weight + c.stake v.author <;>
      simp [h1, h2, h3, h5, pushVote, bitIdx]

lemma append_used (m : CryptoModel) (s : VotesAggregator) (v : Vote)
    (c : Committee) (hd : Header) :
    (s.append m v c hd).2.used =
      (if v.author ∈ s.used then s.used else v.author :: s.used) := by
  rw [append_eq]
  by_cases h1 : v.author ∈ s.used
  · simp [h1]
  · by_cases h2 : s.is_qc_sent <;> by_cases h3 : m.verifyVote v <;>
      by_cases h5 : c.validity_threshold ≤ s.weight + c.stake v.author <;>
      simp [h1, h2, h3, h5, pushVote]

lemma used_monotone (m : CryptoModel) (s : VotesAggregator) (v : Vote)
    (c : Committee) (hd : Header) : s.used ⊆ (s.append m v c hd).2.used := by
  rw [append_used]
  split
  · exact fun a ha => ha
  · exact fun a ha => List.mem_cons_of_mem _ ha

lemma runState_pk_bit_vec (m : CryptoModel) (c : Committee) (hd : Header)
    (vs : List Vote) :
    ∀ s : VotesAggregator,
      (runState m c hd s vs).pk_bit_vec =
        s.pk_bit_vec ||| bitsOf c (incorporatedAuthors m c hd s vs) := by
  induction vs with
  | nil => intro s; simp [runState, incorporatedAuthors, bitsOf]
  | cons v vs ih =>
      intro s
      rw [runState_cons, ih ((s.append m v c hd).2), incorporatedAuthors_cons,
          append_pk_bit_vec]
      by_cases hcond :
          v.author ∉ s.used ∧ s.is_qc_sent = false ∧ m.verifyVote v = true
      · rw [if_pos hcond, if_pos hcond]
        simp only [bitsOf]
        exact (Nat.lor_assoc _ _ _)
      · rw [if_neg hcond, if_neg hcond]

lemma testBit_bitsOf (c : Committee) (l : List PublicKey) (i : Nat) :
    (bitsOf c l).testBit i = true ↔ ∃ a ∈ l, bitIdx c a = i := by
  induction l with
  | nil => simp [bitsOf]
  | cons a rest ih =>
      simp [bitsOf, Nat.testBit_or, ih, Nat.shiftLeft_eq, Nat.testBit_two_pow]

lemma bitIdx_lt (c : Committee) (a : PublicKey) : bitIdx c a < 128 :=
  Nat.mod_lt _ (by norm_num)

lemma popCount128_bitsOf (c : Committee) (l : List PublicKey)
    (hn : (l.map (fun a => bitIdx c a)).Nodup) :
    popCount128 (bitsOf c l) = l.length := by
  have hset : (Finset.range 128).filter (fun i => (bitsOf c l).testBit i) =
      (l.map (fun a => bitIdx c a)).toFinset := by
    ext i
    simp only [Finset.mem_filter, Finset.mem_range, List.mem_toFinset,
      List.mem_map]
    constructor
    · rintro ⟨-, hb⟩
      rcases (testBit_bitsOf c l i).mp hb with ⟨a, ha, hia⟩
      exact ⟨a, ha, hia⟩
    · rintro ⟨a, ha, rfl⟩
      exact ⟨bitIdx_lt c a, (testBit_bitsOf c l _).mpr ⟨a, ha, rfl⟩⟩
  rw [popCount128, hset, List.toFinset_card_of_nodup hn, List.length_map]

lemma incorporated_not_used (m : CryptoModel) (c : Committee) (hd : Header)
    (vs : List Vote) :
    ∀ s a, a ∈ incorporatedAuthors m c hd s vs → a ∉ s.used := by
  induction vs with
  | nil => intro s a ha; simp [incorporatedAuthors] at ha
  | cons v vs ih =>
      intro s a ha
      rw [incorporatedAuthors_cons] at ha
      split at ha
      · rename_i hcond
        rcases List.mem_cons.mp ha with rfl | hrest
        · exact hcond.1
        · intro hmem
          exact ih _ a hrest (used_monotone m s v c hd hmem)
      · intro hmem
        exact ih _ a ha (used_monotone m s v c hd hmem)

lemma incorporated_nodup (m : CryptoModel) (c : Committee) (hd : Header)
    (vs : List Vote) :
    ∀ s, (incorporatedAuthors m c hd s vs).Nodup := by
  induction vs with
  | nil => intro s; simp [incorporatedAuthors]
  | cons v vs ih =>
      intro s
      rw [incorporatedAuthors_cons]
      split
      · rename_i hcond
        refine List.nodup_cons.mpr ⟨?_, ih _⟩
        intro hmem
        have hnot := incorporated_not_used m c hd vs _ _ hmem
        apply hnot
        rw [append_used, if_neg hcond.1]
        exact List.mem_cons_self _ _
      · exact ih _

lemma incorporated_subset_authors (m : CryptoModel) (c : Committee)
    (hd : Header) (vs : List Vote) :
    ∀ s a, a ∈ incorporatedAuthors m c hd s vs → a ∈ vs.map Vote.author := by
  induction vs with
  | nil => intro s a ha; simp [incorporatedAuthors] at ha
  | cons v vs ih =>
      intro s a ha
      rw [incorporatedAuthors_cons] at ha
      rw [List.map_cons]
      split at ha
      · rcases List.mem_cons.mp ha with rfl | hrest
        · exact List.mem_cons_self _ _
        · exact List.mem_cons_of_mem _ (ih _ a hrest)
      · exact List.mem_cons_of_mem _ (ih _ a ha)

/-- C6: at every point of an aggregator's lifetime — i.e. after any sequence
of `append` calls from `new` — the number of set bits of the signer bitmap
equals the number of distinct authorities whose votes were incorporated into
the aggregate signature, provided the committee's key ordering holds at most
128 shares, every voter's share appears in it, and distinct authorities hold
distinct public-key shares. -/
theorem signer_bitmap_popcount (m : CryptoModel) (c : Committee) (hd : Header)
    (vs : List Vote)
    (hlen : c.sorted_keys.length ≤ 128)
    (hmem : ∀ a ∈ vs.map Vote.author, c.get_bls_public_g2 a ∈ c.sorted_keys)
    (hinj : ∀ a b : PublicKey,
      c.get_bls_public_g2 a = c.get_bls_public_g2 b → a = b) :
    popCount128 (runState m c hd VotesAggregator.new vs).pk_bit_vec =
      (incorporatedAuthors m c hd VotesAggregator.new vs).length := by
  rw [runState_pk_bit_vec]
  have h0 : VotesAggregator.new.pk_bit_vec = 0 := rfl
  rw [h0, Nat.zero_or]
  apply popCount128_bitsOf
  apply List.Nodup.map_on ?_ (incorporated_nodup m c hd vs VotesAggregator.new)
  intro x hx y hy hxy
  have hgx := hmem x (incorporated_subset_authors m c hd vs _ x hx)
  have hgy := hmem y (incorporated_subset_authors m c hd vs _ y hy)
  have hix : c.sorted_keys.indexOf (c.get_bls_public_g2 x) < 128 :=
    lt_of_lt_of_le (List.indexOf_lt_length.mpr hgx) hlen
  have hiy : c.sorted_keys.indexOf (c.get_bls_public_g2 y) < 128 :=
    lt_of_lt_of_le (List.indexOf_lt_length.mpr hgy) hlen
  unfold bitIdx at hxy
  rw [Nat.mod_eq_of_lt hix, Nat.mod_eq_of_lt hiy] at hxy
  exact hinj x y ((List.indexOf_inj hgx hgy).mp hxy)

/-- Witness for C6: after the failed vote of authority 0 and the valid vote of
authority 1, the bitmap has exactly one set bit and exactly one authority was
incorporated. -/
theorem signer_bitmap_popcount_witness :
    popCount128 (runState cxModel cxCommittee cxHeader VotesAggregator.new
        [cxVoteA, cxVoteB]).pk_bit_vec =
      (incorporatedAuthors cxModel cxCommittee cxHeader VotesAggregator.new
        [cxVoteA, cxVoteB]).length :=
  signer_bitmap_popcount cxModel cxCommittee cxHeader [cxVoteA, cxVoteB]
    (by decide) (by decide) (fun a b h => h)

/-- C10 (implicit): from spawn onward, the in-flight maps
`processing_headers` and `processing_vote_aggregators` always track exactly
the same key set — own-header registration inserts into both under the header
id and certificate assembly removes from both under the vote id. -/
theorem core_inflight_maps_same_keys (m : CryptoModel) (committee : Committee)
    (gc_depth : Nat) (name : PublicKey) (inputs : List (CoreInput × Nat)) :
    sameKeys (runCore m committee gc_depth (initialCore name) inputs) :=
  sameKeys_runCore m committee gc_depth inputs (initialCore name)
    (fun _ => rfl)

/-- Witness for C9: `cxProposer`'s payload size 3 meets the threshold 2, so a
header is created with the drained buffer, zero accumulator and deadline
`100 + 10`. -/
theorem proposer_trigger_witness :
    (proposerCheck cxModel cxProposer false 100).1.isSome = true ∧
    cxProposedHeader.payload = cxProposer.txns ∧
    cxProposerAfter.payload_size = 0 ∧
    cxProposerAfter.deadline = 100 + cxProposer.max_header_delay := by
  have h2 := (proposer_trigger cxModel cxProposer false 100).2
    cxProposedHeader cxProposerAfter (by rfl)
  exact ⟨(proposer_trigger cxModel cxProposer false 100).1.mpr
    (Or.inl (by decide)), h2.1, h2.2.2.2.2.1, h2.2.2.2.2.2⟩

end Hydrangea
